import Mathlib

/-!
Verification of the ETL core of the `dec_spotify_python_etl` repository:
a shallow embedding of the PostgreSQL load engine
(`etl_project/connectors/postgresql.py`), the paginated Spotify fetcher
(`etl_project/connectors/spotify.py`), the batch loader
(`etl_project/assets/spotify.py`), the run-metadata logger
(`etl_project/assets/metadata_logging.py`) and the pipeline driver
(`etl_project/pipelines/spotify.py`), together with theorems settling the
specification claims about them.
-/

namespace SpotifyEtl

/-- A scalar cell value as stored in a destination table: the records the
loader receives are JSON-ish dictionaries whose values are strings,
integers, or SQL NULL. -/
inductive Value where
  | null : Value
  | str (s : String) : Value
  | int (n : Int) : Value
  deriving DecidableEq, Repr

/-- A record/row: a mapping from column name to value, as the Python code
passes `list[dict]` entries around. -/
abbrev Row := List (String × Value)

/-- The value a record supplies for a column (`rec[col]` when present). -/
def rowValue (r : Row) (c : String) : Option Value :=
  r.lookup c

/-- Whether a stored row and an incoming record agree on every declared
primary-key column.  This is the conflict test of the PostgreSQL unique
index on the primary key, used by `INSERT .. ON CONFLICT (key_columns)`. -/
def matchesKey (keyCols : List String) (r rec : Row) : Bool :=
  keyCols.all (fun k => decide (rowValue r k = rowValue rec k))

/-- The tuple of key-column values of a row, in declared key order. -/
def keyOf (keyCols : List String) (r : Row) : List (Option Value) :=
  keyCols.map (rowValue r)

/-- The physical tuple stored for a record by an SQL `INSERT`: one value per
declared column of the table, in column order; a column the record does not
supply gets its default, NULL. -/
def projectRow (cols : List String) (rec : Row) : Row :=
  cols.map (fun c => (c, (rowValue rec c).getD Value.null))

/-- The effect of `ON CONFLICT DO UPDATE SET c = excluded.c` (for every
non-key column `c` of the table) on one existing row: key columns keep the
stored value, every other stored column is overwritten with the incoming
row's value for it (or kept when the incoming tuple has no such column). -/
def updateRow (keyCols : List String) (r incoming : Row) : Row :=
  r.map (fun cv =>
    if cv.1 ∈ keyCols then cv
    else (cv.1, (rowValue incoming cv.1).getD cv.2))

/-- One incoming record of the multi-row
`INSERT .. VALUES .. ON CONFLICT (key_columns) DO UPDATE` statement built by
`PostgreSqlClient.upsert`: rows whose key already exists are updated in
place, a record with a fresh key is inserted at the end. -/
def upsertRow (keyCols cols : List String) (rows : List Row) (rec : Row) : List Row :=
  if rows.any (fun r => matchesKey keyCols r rec) then
    rows.map (fun r =>
      if matchesKey keyCols r rec then updateRow keyCols r (projectRow cols rec) else r)
  else
    rows ++ [projectRow cols rec]

section RowLemmas

/-- `List.all` only inspects members of the list. -/
theorem all_congr_of_mem {l : List String} {f g : String → Bool}
    (h : ∀ k ∈ l, f k = g k) : l.all f = l.all g := by
  induction l with
  | nil => rfl
  | cons hd tl ih =>
    simp only [List.all_cons, h hd (by simp)]
    rw [ih (fun k hk => h k (by simp [hk]))]

/-- `List.lookup` through a `map` that preserves keys. -/
theorem lookup_map_of_fst (f : String × Value → String × Value)
    (hf : ∀ p, (f p).1 = p.1) (l : Row) (c : String) :
    List.lookup c (l.map f) = (List.lookup c l).map (fun v => (f (c, v)).2) := by
  induction l with
  | nil => rfl
  | cons hd tl ih =>
    obtain ⟨a, b⟩ := hd
    have hfa : f (a, b) = (a, (f (a, b)).2) := Prod.ext (hf (a, b)) rfl
    rw [List.map_cons, hfa]
    by_cases h : c = a
    · subst h
      simp [List.lookup]
    · have hbeq : (c == a) = false := by simp [h]
      simp only [List.lookup, hbeq]
      exact ih

/-- Column values after a conflict update: key columns are untouched,
non-key columns take the incoming value when the stored row has the column
and the incoming tuple supplies one. -/
theorem rowValue_updateRow (keyCols : List String) (r incoming : Row) (c : String) :
    rowValue (updateRow keyCols r incoming) c =
      (rowValue r c).map (fun v =>
        if c ∈ keyCols then v else (rowValue incoming c).getD v) := by
  unfold updateRow rowValue
  rw [lookup_map_of_fst]
  · cases List.lookup c r with
    | none => rfl
    | some v => by_cases h : c ∈ keyCols <;> simp [h]
  · intro p
    by_cases h : p.1 ∈ keyCols <;> simp [h]

/-- Key columns survive a conflict update unchanged. -/
theorem rowValue_updateRow_key (keyCols : List String) (r incoming : Row)
    (k : String) (hk : k ∈ keyCols) :
    rowValue (updateRow keyCols r incoming) k = rowValue r k := by
  rw [rowValue_updateRow]
  cases rowValue r k <;> simp [hk]

/-- A conflict update does not change which incoming records a row's key
matches. -/
theorem matchesKey_updateRow (keyCols : List String) (r incoming rec : Row) :
    matchesKey keyCols (updateRow keyCols r incoming) rec = matchesKey keyCols r rec := by
  unfold matchesKey
  refine all_congr_of_mem (fun k hk => ?_)
  rw [rowValue_updateRow_key keyCols r incoming k hk]

/-- Updating a row twice with the same incoming tuple is the same as
updating it once. -/
theorem updateRow_updateRow (keyCols : List String) (r incoming : Row) :
    updateRow keyCols (updateRow keyCols r incoming) incoming = updateRow keyCols r incoming := by
  unfold updateRow
  rw [List.map_map]
  refine List.map_congr_left (fun cv _ => ?_)
  obtain ⟨a, b⟩ := cv
  by_cases h : a ∈ keyCols
  · simp [h]
  · simp only [Function.comp_apply, h, if_neg, not_false_eq_true]
    cases hv : rowValue incoming a <;> simp [h, hv]

/-- The stored tuple of a record, looked up by column. -/
theorem rowValue_projectRow (cols : List String) (rec : Row) (c : String) :
    rowValue (projectRow cols rec) c =
      if c ∈ cols then some ((rowValue rec c).getD Value.null) else none := by
  induction cols with
  | nil => rfl
  | cons hd tl ih =>
    by_cases h : c = hd
    · subst h
      simp [projectRow, rowValue, List.lookup]
    · have hbeq : (c == hd) = false := by simp [h]
      simp only [projectRow, List.map_cons, rowValue, List.lookup, hbeq] at ih ⊢
      rw [ih]
      simp [h]

end RowLemmas

/-! ## The PostgreSQL client (`etl_project/connectors/postgresql.py`)

The database is modelled as the association of table names to their stored
rows, together with the views that read them (the pipeline creates views
over the destination tables, and PostgreSQL's default `DROP TABLE`
behaviour — `RESTRICT`, the code writes no `CASCADE` — depends on them).
Each client method issues single autocommitted statements, so a method that
fails mid-sequence leaves the effects of its earlier statements in place:
results carry the database state both on success and on error. -/

/-- A destination table schema: `sqlalchemy.Table` as the claims use it —
a name, the declared columns in order, and the declared primary-key
columns (`table.primary_key.columns`). -/
structure Schema where
  name : String
  columns : List String
  keyCols : List String
  deriving DecidableEq, Repr

/-- The database: existing tables with their rows, and existing views with
the tables each one depends on. -/
structure Db where
  tables : List (String × List Row)
  views : List (String × List String)
  deriving DecidableEq, Repr

/-- Errors surfaced by the PostgreSQL client (the Python code lets the
underlying `sqlalchemy`/PostgreSQL exceptions propagate). -/
inductive DbErr where
  /-- unique-constraint violation on the primary key (`IntegrityError`) -/
  | constraintViolation : DbErr
  /-- the `INSERT` target relation does not exist -/
  | undefinedTable : DbErr
  /-- `ON CONFLICT DO UPDATE` affecting the same row twice in one statement -/
  | cardinalityViolation : DbErr
  /-- `DROP TABLE` without `CASCADE` on a table that other objects depend on -/
  | dependentObjects : DbErr
  /-- `load_data`: load method not one of insert/upsert/overwrite -/
  | unsupportedStrategy : DbErr
  /-- `load_data`: a table name with no entry in `table_schemas` -/
  | schemaNotFound : DbErr
  deriving DecidableEq, Repr

/-- Outcome of a client call: the new database state, or the error raised
together with the state left behind by the statements that did commit. -/
inductive DbResult where
  | ok (db : Db) : DbResult
  | err (e : DbErr) (db : Db) : DbResult
  deriving DecidableEq, Repr

/-- `metadata.create_all(engine)` / `create_tables` (`checkfirst=True`):
create each schema's table when absent, leave existing tables untouched. -/
def createAll (schemas : List Schema) (db : Db) : Db :=
  schemas.foldl
    (fun d s =>
      if (d.tables.lookup s.name).isSome then d
      else { d with tables := d.tables ++ [(s.name, [])] })
    db

/-- Replace the stored rows of a named table. -/
def setTable (db : Db) (name : String) (rows : List Row) : Db :=
  { db with tables := db.tables.map (fun t => if t.1 = name then (t.1, rows) else t) }

/-- `PostgreSqlClient.drop_table`: executes
`drop table if exists {table_name};` — a no-op when the table is absent;
with no `CASCADE`, PostgreSQL refuses to drop a table that other objects
(the pipeline's views) depend on. -/
def dropTable (name : String) (db : Db) : DbResult :=
  match db.tables.lookup name with
  | none => .ok db
  | some _ =>
    if db.views.any (fun v => v.2.contains name) then .err .dependentObjects db
    else .ok { db with tables := db.tables.filter (fun t => t.1 ≠ name) }

/-- `PostgreSqlClient.insert`: `metadata.create_all` (creating only the
tables bound to the *passed* metadata), then one multi-row
`INSERT .. VALUES ..`.  The single statement either lands whole or raises a
unique-constraint violation when an incoming primary key collides with an
existing row or with another incoming row, leaving the rows unchanged. -/
def insertRows (data : List Row) (table : Schema) (metaTables : List Schema)
    (db : Db) : DbResult :=
  let db' := createAll metaTables db
  match db'.tables.lookup table.name with
  | none => .err .undefinedTable db'
  | some rows =>
    let newRows := data.map (projectRow table.columns)
    if newRows.any (fun nr => rows.any (fun r =>
          decide (keyOf table.keyCols r = keyOf table.keyCols nr)))
        || !decide (newRows.map (keyOf table.keyCols)).Nodup then
      .err .constraintViolation db'
    else
      .ok (setTable db' table.name (rows ++ newRows))

/-- `PostgreSqlClient.upsert`: `metadata.create_all`, then one
`INSERT .. VALUES .. ON CONFLICT (key_columns) DO UPDATE SET` statement
setting every non-key column from `excluded`.  PostgreSQL raises a
cardinality violation when one statement would affect the same row twice
(two incoming rows with equal keys); otherwise each incoming row updates
the rows its key collides with and is inserted fresh when it collides with
none. -/
def upsertRows (data : List Row) (table : Schema) (metaTables : List Schema)
    (db : Db) : DbResult :=
  let db' := createAll metaTables db
  match db'.tables.lookup table.name with
  | none => .err .undefinedTable db'
  | some rows =>
    if !decide ((data.map (fun r => keyOf table.keyCols (projectRow table.columns r))).Nodup) then
      .err .cardinalityViolation db'
    else
      .ok (setTable db' table.name
        (data.foldl (upsertRow table.keyCols table.columns) rows))

/-- `PostgreSqlClient.overwrite`: `drop_table(table.name)` then
`insert(data, table, metadata)`. -/
def overwrite (data : List Row) (table : Schema) (metaTables : List Schema)
    (db : Db) : DbResult :=
  match dropTable table.name db with
  | .err e db' => .err e db'
  | .ok db' => insertRows data table metaTables db'

/-! ## The batch loader (`etl_project/assets/spotify.py`, `load_data`)

`load_data` validates the load method up front, then iterates the data
dictionary in insertion order; for each table name it looks the schema up
*at that iteration* and calls the selected client method with a freshly
constructed empty `MetaData()` — so the per-call "ensure created" step
creates nothing. -/

/-- Dispatch through `method_mapping[load_method]`.  The fresh `MetaData()`
argument of the Python call is the empty schema list. -/
def applyLoadMethod (method : String) (data : List Row) (table : Schema)
    (db : Db) : DbResult :=
  if method = "insert" then insertRows data table [] db
  else if method = "upsert" then upsertRows data table [] db
  else overwrite data table [] db

/-- The `for table_name, df in data_dict.items()` loop of `load_data`:
schema lookup happens per table, and a raise leaves the effects of the
earlier iterations in place. -/
def loadTables (method : String) (tableSchemas : List (String × Schema)) :
    List (String × List Row) → Db → DbResult
  | [], db => .ok db
  | (name, df) :: rest, db =>
    match tableSchemas.lookup name with
    | some table =>
      match applyLoadMethod method df table db with
      | .ok db' => loadTables method tableSchemas rest db'
      | .err e db' => .err e db'
    | none => .err .schemaNotFound db

/-- `load_data(data_dict, postgresql_client, table_schemas, load_method)`. -/
def load_data (dataDict : List (String × List Row))
    (tableSchemas : List (String × Schema)) (method : String) (db : Db) : DbResult :=
  if method ∈ ["insert", "upsert", "overwrite"] then
    loadTables method tableSchemas dataDict db
  else
    .err .unsupportedStrategy db

/-! ## The paginated fetcher (`etl_project/connectors/spotify.py`,
`SpotifyAPIClient.get_playlist_data`)

The remote API is a function from requests to responses.  Items and
continuation URLs are opaque strings; a page response carries `items` and
`next`, and the first response is the playlist object: its non-`tracks`
top-level fields plus a `tracks` page.  The loop guard is Python
truthiness of `playlist_data['tracks']['next']`: `None` and the empty
string end the loop.  Fetching is given fuel because a cyclic `next` chain
would make the Python `while` loop run forever. -/

/-- One page of the paged `tracks` object: `items` and the continuation
reference `next` (absent on the final page). -/
structure PageBody where
  items : List String
  next : Option String
  deriving DecidableEq, Repr

/-- The JSON body of the initial playlist response: the non-`tracks`
top-level fields (opaque) and the first `tracks` page. -/
structure PlaylistResponse where
  fields : List (String × String)
  tracks : PageBody
  deriving DecidableEq, Repr

/-- The remote API: the playlist endpoint keyed by playlist id, and page
responses keyed by the continuation URL.  Each response is an HTTP status
code with a body. -/
structure SpotifyApi where
  playlistResponse : String → Nat × PlaylistResponse
  pageResponse : String → Nat × PageBody

/-- Python truthiness of the `next` reference. -/
def truthy : Option String → Bool
  | none => false
  | some s => !s.isEmpty

/-- What one invocation of `get_playlist_data` produced. -/
inductive FetchResult where
  /-- normal return: the final `playlist_data` object and `all_tracks` -/
  | ok (playlist : PlaylistResponse) (items : List String) : FetchResult
  /-- the raised `Exception`, carrying the non-200 response status -/
  | fail (status : Nat) : FetchResult
  /-- fuel ran out while `next` was still truthy (a non-terminating chain) -/
  | outOfFuel : FetchResult
  deriving DecidableEq, Repr

/-- The `while playlist_data['tracks']['next']:` loop.  Returns the result
together with the trace of continuation URLs requested, in order. -/
def fetchLoop (api : SpotifyApi) : Nat → PlaylistResponse → List String →
    FetchResult × List String
  | fuel, pd, acc =>
    match pd.tracks.next with
    | none => (.ok pd acc, [])
    | some u =>
      if u.isEmpty then (.ok pd acc, [])
      else
        match fuel with
        | 0 => (.outOfFuel, [])
        | fuel' + 1 =>
          let resp := api.pageResponse u
          if resp.1 = 200 then
            let rec' := fetchLoop api fuel' { pd with tracks := resp.2 } (acc ++ resp.2.items)
            (rec'.1, u :: rec'.2)
          else
            (.fail resp.1, [u])

/-- `SpotifyAPIClient.get_playlist_data(playlist_id)`: the initial request
(traced by the playlist id), then the pagination loop; `all_tracks` starts
as the first page's items. -/
def getPlaylistData (api : SpotifyApi) (fuel : Nat) (playlistId : String) :
    FetchResult × List String :=
  let resp := api.playlistResponse playlistId
  if resp.1 = 200 then
    let out := fetchLoop api fuel resp.2 resp.2.tracks.items
    (out.1, playlistId :: out.2)
  else
    (.fail resp.1, [playlistId])

/-- A finite source: from page body `b`, each listed hop `(u, b')` says the
current page's `next` is the non-empty URL `u` and requesting `u` answers
`200` with body `b'`. -/
def chainHops (api : SpotifyApi) : PageBody → List (String × PageBody) → Bool
  | _, [] => true
  | b, (u, b') :: rest =>
    decide (b.next = some u) && !u.isEmpty
      && decide (api.pageResponse u = (200, b')) && chainHops api b' rest

/-- The page body reached at the end of a hop list. -/
def lastBody (b : PageBody) (hops : List (String × PageBody)) : PageBody :=
  (hops.map (fun h => h.2)).getLastD b

/-! ## The run-metadata logger (`etl_project/assets/metadata_logging.py`)
and the pipeline driver (`etl_project/pipelines/spotify.py`, `run_pipeline`)

The log table `pipeline_logs` is the list of its rows in insertion order.
`MetaDataLogging.__init__` allocates the run id from the current rows;
`MetaDataLogging.log` appends one row.  `run_pipeline` constructs the
logger, logs `start`, runs the pipeline body, and logs `success` — or
`fail` with the captured log text when the body raises. -/

/-- One row of `pipeline_logs`. -/
structure LogEntry where
  pipeline_name : String
  run_id : Int
  timestamp : String
  status : String
  config : String
  logs : Option String
  deriving DecidableEq, Repr

/-- `SELECT max(run_id) .. WHERE pipeline_name = p`: `none` when the
pipeline has no rows. -/
def maxRunId : List LogEntry → String → Option Int
  | [], _ => none
  | e :: rest, p =>
    let r := maxRunId rest p
    if e.pipeline_name = p then
      some (match r with
        | none => e.run_id
        | some m => max e.run_id m)
    else r

/-- `MetaDataLogging._get_run_id`: `1` when no run exists, otherwise the
stored maximum plus one. -/
def getRunId (entries : List LogEntry) (p : String) : Int :=
  match maxRunId entries p with
  | none => 1
  | some m => m + 1

/-- `MetaDataLogging.log`: insert one row carrying the constructor's
pipeline name, the allocated run id and config, the given timestamp,
status, and log text. -/
def logAppend (p : String) (rid : Int) (ts status config : String)
    (logs : Option String) (entries : List LogEntry) : List LogEntry :=
  entries ++ [⟨p, rid, ts, status, config, logs⟩]

/-- `run_pipeline`: construct the logger (allocating the run id from the
current table), log `start` (null logs), run the body, then log `success`
with the captured text — or, when the body raises, log `fail` with the
captured text.  Returns the new table and the allocated run id. -/
def runPipelineModel (p config ts1 ts2 : String) (bodyOk : Bool)
    (logsText : String) (entries : List LogEntry) : List LogEntry × Int :=
  let rid := getRunId entries p
  let afterStart := logAppend p rid ts1 "start" config none entries
  if bodyOk then
    (logAppend p rid ts2 "success" config (some logsText) afterStart, rid)
  else
    (logAppend p rid ts2 "fail" config (some logsText) afterStart, rid)

/-- A sequence of `n` complete sequential pipeline runs (each construction
followed by that run's rows being written), returning the final table and
the run ids allocated in order. -/
def runSeq (p config : String) : Nat → List LogEntry → List LogEntry × List Int
  | 0, entries => (entries, [])
  | n + 1, entries =>
    let out := runPipelineModel p config "t1" "t2" true "ok" entries
    let rest := runSeq p config n out.1
    (rest.1, out.2 :: rest.2)

/-- The integers `s, s+1, …, s+n-1`. -/
def intsFrom (s : Int) : Nat → List Int
  | 0 => []
  | n + 1 => s :: intsFrom (s + 1) n

/-! ## Pagination lemmas -/

section FetchLemmas

/-- Prepending a hop to a chain shifts the final body. -/
theorem lastBody_cons (b : PageBody) (u : String) (b' : PageBody)
    (rest : List (String × PageBody)) :
    lastBody b ((u, b') :: rest) = lastBody b' rest := by
  simp only [lastBody, List.map_cons, List.getLastD_cons]

/-- One successful iteration of the pagination loop: replace the `tracks`
object, extend the accumulator, record the requested URL. -/
theorem fetchLoop_step (api : SpotifyApi) (fuel' : Nat) (pd : PlaylistResponse)
    (acc : List String) (u : String) (b' : PageBody)
    (hnext : pd.tracks.next = some u) (hemp : u.isEmpty = false)
    (hresp : api.pageResponse u = (200, b')) :
    fetchLoop api (fuel' + 1) pd acc =
      ((fetchLoop api fuel' { pd with tracks := b' } (acc ++ b'.items)).1,
       u :: (fetchLoop api fuel' { pd with tracks := b' } (acc ++ b'.items)).2) := by
  rw [fetchLoop, hnext]
  simp [hemp, hresp]

/-- One failing iteration of the pagination loop: the non-200 status is
raised at once. -/
theorem fetchLoop_step_fail (api : SpotifyApi) (fuel' : Nat) (pd : PlaylistResponse)
    (acc : List String) (u : String) (s : Nat) (b : PageBody)
    (hnext : pd.tracks.next = some u) (hemp : u.isEmpty = false)
    (hresp : api.pageResponse u = (s, b)) (hs : s ≠ 200) :
    fetchLoop api (fuel' + 1) pd acc = (.fail s, [u]) := by
  rw [fetchLoop, hnext]
  simp [hemp, hresp, hs]

/-- The pagination loop stops as soon as `next` is falsy, returning the
current object and accumulator and requesting nothing. -/
theorem fetchLoop_last (api : SpotifyApi) (fuel : Nat) (pd : PlaylistResponse)
    (acc : List String) (hlast : truthy pd.tracks.next = false) :
    fetchLoop api fuel pd acc = (.ok pd acc, []) := by
  rw [fetchLoop]
  cases hnext : pd.tracks.next with
  | none => rfl
  | some u =>
    have hemp : u.isEmpty = true := by
      rw [hnext] at hlast
      simpa [truthy] using hlast
    simp [hemp]

/-- Running the pagination loop along a finite chain whose last page has a
falsy `next`: it returns the accumulated items extended with every hop's
items in order, the final page as the `tracks` field, and requests exactly
the chain's URLs. -/
theorem fetchLoop_chain (api : SpotifyApi) (hops : List (String × PageBody)) :
    ∀ (fuel : Nat) (pd : PlaylistResponse) (acc : List String),
    chainHops api pd.tracks hops = true →
    truthy (lastBody pd.tracks hops).next = false →
    hops.length ≤ fuel →
    fetchLoop api fuel pd acc =
      (.ok ⟨pd.fields, lastBody pd.tracks hops⟩
        (acc ++ (hops.map (fun h => h.2.items)).flatten),
       hops.map (fun h => h.1)) := by
  induction hops with
  | nil =>
    intro fuel pd acc _ hlast _
    simp only [lastBody, List.map_nil, List.getLastD_nil, List.flatten_nil, List.append_nil]
    exact fetchLoop_last api fuel pd acc hlast
  | cons hd rest ih =>
    intro fuel pd acc hchain hlast hfuel
    obtain ⟨u, b'⟩ := hd
    simp only [chainHops, Bool.and_eq_true, decide_eq_true_eq, Bool.not_eq_true'] at hchain
    obtain ⟨⟨⟨hnext, hemp⟩, hresp⟩, hrest⟩ := hchain
    match fuel with
    | 0 => simp at hfuel
    | fuel' + 1 =>
      rw [lastBody_cons] at hlast
      have hfuel' : rest.length ≤ fuel' := by simpa using hfuel
      have ihx := ih fuel' { pd with tracks := b' } (acc ++ b'.items) hrest hlast hfuel'
      rw [fetchLoop_step api fuel' pd acc u b' hnext hemp hresp, ihx, lastBody_cons]
      simp [List.append_assoc]

/-- Running the pagination loop along a good chain that then hits a
non-200 page: the loop aborts with that status, having requested exactly
the good URLs and then the failing one. -/
theorem fetchLoop_chain_fail (api : SpotifyApi) (hops : List (String × PageBody)) :
    ∀ (fuel : Nat) (pd : PlaylistResponse) (acc : List String)
      (u : String) (s : Nat) (b : PageBody),
    chainHops api pd.tracks hops = true →
    (lastBody pd.tracks hops).next = some u →
    u.isEmpty = false →
    api.pageResponse u = (s, b) →
    s ≠ 200 →
    hops.length < fuel →
    fetchLoop api fuel pd acc = (.fail s, hops.map (fun h => h.1) ++ [u]) := by
  induction hops with
  | nil =>
    intro fuel pd acc u s b _ hnext hemp hresp hs hfuel
    simp only [lastBody, List.map_nil, List.getLastD_nil] at hnext
    match fuel with
    | 0 => simp at hfuel
    | fuel' + 1 =>
      simp only [List.map_nil, List.nil_append]
      exact fetchLoop_step_fail api fuel' pd acc u s b hnext hemp hresp hs
  | cons hd rest ih =>
    intro fuel pd acc u s b hchain hnext hemp hresp hs hfuel
    obtain ⟨u0, b'⟩ := hd
    simp only [chainHops, Bool.and_eq_true, decide_eq_true_eq, Bool.not_eq_true'] at hchain
    obtain ⟨⟨⟨hnext0, hemp0⟩, hresp0⟩, hrest⟩ := hchain
    match fuel with
    | 0 => simp at hfuel
    | fuel' + 1 =>
      rw [lastBody_cons] at hnext
      have hfuel' : rest.length < fuel' := by simpa using hfuel
      rw [fetchLoop_step api fuel' pd acc u0 b' hnext0 hemp0 hresp0,
        ih fuel' { pd with tracks := b' } (acc ++ b'.items) u s b hrest hnext hemp hresp hs hfuel']
      simp

end FetchLemmas

/-! ## Claims C3, C7, C8: the paginated fetcher -/

/-- C3: for every paginated source whose pages each expose an items list
and a continuation reference, with the final page's reference falsy,
`get_playlist_data` returns the concatenation of all pages' items in
source page order, having followed exactly the non-null continuation
references (the request trace is the playlist id followed by the chain's
URLs, not reconstructed requests). -/
theorem pagination_completeness (api : SpotifyApi) (fuel : Nat) (pid : String)
    (fields : List (String × String)) (t0 : PageBody)
    (hops : List (String × PageBody))
    (hinit : api.playlistResponse pid = (200, ⟨fields, t0⟩))
    (hchain : chainHops api t0 hops = true)
    (hlast : truthy (lastBody t0 hops).next = false)
    (hfuel : hops.length ≤ fuel) :
    getPlaylistData api fuel pid =
      (.ok ⟨fields, lastBody t0 hops⟩
        ((t0 :: hops.map (fun h => h.2)).map PageBody.items).flatten,
       pid :: hops.map (fun h => h.1)) := by
  have hloop := fetchLoop_chain api hops fuel ⟨fields, t0⟩ t0.items hchain hlast hfuel
  simp only [getPlaylistData, hinit, if_pos rfl, hloop]
  simp [List.map_map]
  rfl

/-- The three-page source of the pagination-completeness scenario:
40 + 40 + 20 items, the last page's `next` null. -/
def page1Items : List String := (List.range 40).map toString

/-- Second page of the three-page source (40 items). -/
def page2Items : List String := (List.range 40).map (fun n => toString (40 + n))

/-- Third page of the three-page source (20 items). -/
def page3Items : List String := (List.range 20).map (fun n => toString (80 + n))

/-- A remote source serving the three pages linked by `page2`/`page3`
continuation URLs. -/
def apiThreePages : SpotifyApi where
  playlistResponse := fun _ => (200, ⟨[("id", "playlist1")], ⟨page1Items, some "page2"⟩⟩)
  pageResponse := fun u =>
    if u = "page2" then (200, ⟨page2Items, some "page3"⟩)
    else if u = "page3" then (200, ⟨page3Items, none⟩)
    else (404, ⟨[], none⟩)

/-- The two continuation hops of the three-page source. -/
def hops3 : List (String × PageBody) :=
  [("page2", ⟨page2Items, some "page3"⟩), ("page3", ⟨page3Items, none⟩)]

/-- Witness for C3: on the synthetic 3-page source (counts 40/40/20, last
page `next = null`), the fetch returns all pages concatenated — exactly
100 items in source order. -/
theorem pagination_completeness_witness :
    getPlaylistData apiThreePages 2 "playlist1" =
      (.ok ⟨[("id", "playlist1")], lastBody ⟨page1Items, some "page2"⟩ hops3⟩
        (((⟨page1Items, some "page2"⟩ : PageBody) :: hops3.map (fun h => h.2)).map
          PageBody.items).flatten,
       "playlist1" :: hops3.map (fun h => h.1)) ∧
    ((((⟨page1Items, some "page2"⟩ : PageBody) :: hops3.map (fun h => h.2)).map
      PageBody.items).flatten).length = 100 :=
  ⟨pagination_completeness apiThreePages 2 "playlist1" [("id", "playlist1")]
      ⟨page1Items, some "page2"⟩ hops3 rfl (by decide) (by decide) (by decide),
   by decide⟩

/-- A remote source with two pages whose bodies differ, to exhibit the
mutation of the returned playlist object. -/
def apiTwoPages : SpotifyApi where
  playlistResponse := fun _ => (200, ⟨[("id", "pl"), ("name", "N")], ⟨["a", "b"], some "u2"⟩⟩)
  pageResponse := fun u =>
    if u = "u2" then (200, ⟨["c"], none⟩) else (404, ⟨[], none⟩)

/-- Counterexample to C7 as stated: on a 2-page source the value returned
as the playlist metadata is *not* the first response's top-level object —
the loop reassigns its `tracks` field to each follow-up page's body, so
the returned object's `tracks` field is the final page, not the first
response's. -/
theorem metadata_mutated_counterexample :
    (apiTwoPages.playlistResponse "pl").1 = 200 ∧
    (getPlaylistData apiTwoPages 5 "pl").1 =
      .ok ⟨[("id", "pl"), ("name", "N")], ⟨["c"], none⟩⟩ ["a", "b", "c"] ∧
    (⟨[("id", "pl"), ("name", "N")], ⟨["c"], none⟩⟩ : PlaylistResponse) ≠
      (apiTwoPages.playlistResponse "pl").2 := by
  refine ⟨rfl, by decide, by decide⟩

/-- C7 (amended): for every multi-page fetch that succeeds, every
*non-`tracks`* top-level field of the returned metadata equals the first
response's; the `tracks` field is replaced by the final page's body. -/
theorem metadata_fields_preserved (api : SpotifyApi) (fuel : Nat) (pid : String)
    (fields : List (String × String)) (t0 : PageBody)
    (hops : List (String × PageBody))
    (hinit : api.playlistResponse pid = (200, ⟨fields, t0⟩))
    (hchain : chainHops api t0 hops = true)
    (hlast : truthy (lastBody t0 hops).next = false)
    (hfuel : hops.length ≤ fuel) :
    ∃ items tr, getPlaylistData api fuel pid =
      (.ok ⟨fields, lastBody t0 hops⟩ items, tr) := by
  have hloop := fetchLoop_chain api hops fuel ⟨fields, t0⟩ t0.items hchain hlast hfuel
  simp only [getPlaylistData, hinit, if_pos rfl, hloop]
  exact ⟨_, _, rfl⟩

/-- Witness for the amended C7 on the two-page source: the non-`tracks`
fields come back unchanged and `tracks` is the final page. -/
theorem metadata_fields_preserved_witness :
    ∃ items tr, getPlaylistData apiTwoPages 3 "pl" =
      (.ok ⟨[("id", "pl"), ("name", "N")],
        lastBody ⟨["a", "b"], some "u2"⟩ [("u2", ⟨["c"], none⟩)]⟩ items, tr) :=
  metadata_fields_preserved apiTwoPages 3 "pl" [("id", "pl"), ("name", "N")]
    ⟨["a", "b"], some "u2"⟩ [("u2", ⟨["c"], none⟩)] rfl (by decide) (by decide) (by decide)

/-- C8: a non-success response at any page — initial or follow-up — aborts
the whole fetch with an error carrying the response status; no item list
is returned, and the failing page is requested exactly once (no retry). -/
theorem nonsuccess_aborts (api : SpotifyApi) (fuel : Nat) (pid : String) :
    (∀ s pd, api.playlistResponse pid = (s, pd) → s ≠ 200 →
      getPlaylistData api fuel pid = (.fail s, [pid])) ∧
    (∀ fields t0 hops u s b,
      api.playlistResponse pid = (200, (⟨fields, t0⟩ : PlaylistResponse)) →
      chainHops api t0 hops = true →
      (lastBody t0 hops).next = some u →
      u.isEmpty = false →
      api.pageResponse u = (s, b) →
      s ≠ 200 →
      hops.length < fuel →
      getPlaylistData api fuel pid = (.fail s, pid :: (hops.map (fun h => h.1) ++ [u])) ∧
      (∀ pd items tr, getPlaylistData api fuel pid ≠ (.ok pd items, tr)) ∧
      (u ≠ pid → u ∉ hops.map (fun h => h.1) →
        (pid :: (hops.map (fun h => h.1) ++ [u])).count u = 1)) := by
  constructor
  · intro s pd hresp hs
    simp [getPlaylistData, hresp, hs]
  · intro fields t0 hops u s b hinit hchain hnext hemp hresp hs hfuel
    have hloop := fetchLoop_chain_fail api hops fuel ⟨fields, t0⟩ t0.items u s b
      hchain hnext hemp hresp hs hfuel
    have hmain : getPlaylistData api fuel pid =
        (.fail s, pid :: (hops.map (fun h => h.1) ++ [u])) := by
      simp [getPlaylistData, hinit, hloop]
    refine ⟨hmain, ?_, ?_⟩
    · intro pd items tr hok
      rw [hmain] at hok
      exact FetchResult.noConfusion (congrArg Prod.fst hok)
    · intro hne hnotmem
      simp [List.count_cons, List.count_append,
        List.count_eq_zero_of_not_mem hnotmem, Ne.symm hne]

/-- A source whose playlist endpoint itself answers 500. -/
def apiBadInitial : SpotifyApi where
  playlistResponse := fun _ => (500, ⟨[], ⟨[], none⟩⟩)
  pageResponse := fun _ => (404, ⟨[], none⟩)

/-- A source whose second page answers 503. -/
def apiBadSecondPage : SpotifyApi where
  playlistResponse := fun _ => (200, ⟨[("id", "pl")], ⟨["a"], some "u2"⟩⟩)
  pageResponse := fun u =>
    if u = "u2" then (503, ⟨["junk"], none⟩) else (404, ⟨[], none⟩)

/-- Witness for C8: the initial failure surfaces `fail 500` after one
request; a second-page failure surfaces `fail 503`, requesting the failing
URL exactly once and returning no items. -/
theorem nonsuccess_aborts_witness :
    getPlaylistData apiBadInitial 5 "pl" = (.fail 500, ["pl"]) ∧
    getPlaylistData apiBadSecondPage 5 "pl" = (.fail 503, "pl" :: ([] ++ ["u2"])) ∧
    (["pl", "u2"].count "u2" = 1) :=
  ⟨(nonsuccess_aborts apiBadInitial 5 "pl").1 500 ⟨[], ⟨[], none⟩⟩ rfl (by decide),
   ((nonsuccess_aborts apiBadSecondPage 5 "pl").2 [("id", "pl")] ⟨["a"], some "u2"⟩
      [] "u2" 503 ⟨["junk"], none⟩ rfl (by decide) (by decide) (by decide) (by decide)
      (by decide) (by decide)).1,
   by decide⟩

/-! ## Logging lemmas -/

section LogLemmas

/-- Max of two optional run ids (absent = no rows). -/
def omax : Option Int → Option Int → Option Int
  | none, b => b
  | some a, none => some a
  | some a, some b => some (max a b)

theorem maxRunId_cons (e : LogEntry) (rest : List LogEntry) (p : String) :
    maxRunId (e :: rest) p =
      if e.pipeline_name = p then omax (some e.run_id) (maxRunId rest p)
      else maxRunId rest p := by
  rw [maxRunId]
  by_cases h : e.pipeline_name = p
  · simp only [h, if_pos rfl]
    cases maxRunId rest p <;> rfl
  · simp [h]

theorem maxRunId_append (xs ys : List LogEntry) (p : String) :
    maxRunId (xs ++ ys) p = omax (maxRunId xs p) (maxRunId ys p) := by
  induction xs with
  | nil =>
    simp only [List.nil_append]
    cases maxRunId ys p <;> rfl
  | cons e xs ih =>
    rw [List.cons_append, maxRunId_cons, maxRunId_cons, ih]
    by_cases h : e.pipeline_name = p
    · simp only [h, if_pos rfl]
      cases maxRunId xs p <;> cases maxRunId ys p <;> simp [omax, max_assoc]
    · simp [h]

/-- Every stored run id of a pipeline is bounded by the stored maximum. -/
theorem le_maxRunId (entries : List LogEntry) (p : String) (e : LogEntry)
    (he : e ∈ entries) (hp : e.pipeline_name = p) :
    ∃ m, maxRunId entries p = some m ∧ e.run_id ≤ m := by
  induction entries with
  | nil => cases he
  | cons hd tl ih =>
    rw [maxRunId_cons]
    rcases List.mem_cons.mp he with heq | htl
    · subst heq
      simp only [hp, if_pos rfl]
      cases hmax : maxRunId tl p with
      | none => exact ⟨e.run_id, rfl, le_refl _⟩
      | some m => exact ⟨max e.run_id m, rfl, le_max_left _ _⟩
    · obtain ⟨m, hm, hle⟩ := ih htl
      by_cases h : hd.pipeline_name = p
      · simp only [h, if_pos rfl, hm]
        exact ⟨max hd.run_id m, rfl, le_trans hle (le_max_right _ _)⟩
      · simp only [h, if_neg, if_false]
        exact ⟨m, hm, hle⟩

/-- Writing two rows that both carry the freshly allocated run id makes it
the stored maximum. -/
theorem maxRunId_two_writes (entries : List LogEntry) (p : String) (e1 e2 : LogEntry)
    (h1 : e1.pipeline_name = p) (h2 : e2.pipeline_name = p)
    (hr1 : e1.run_id = getRunId entries p) (hr2 : e2.run_id = getRunId entries p) :
    maxRunId ((entries ++ [e1]) ++ [e2]) p = some (getRunId entries p) := by
  rw [maxRunId_append, maxRunId_append]
  have m1 : maxRunId [e1] p = some (getRunId entries p) := by
    rw [maxRunId_cons]
    simp [h1, hr1, maxRunId, omax]
  have m2 : maxRunId [e2] p = some (getRunId entries p) := by
    rw [maxRunId_cons]
    simp [h2, hr2, maxRunId, omax]
  rw [m1, m2]
  unfold getRunId
  cases hM : maxRunId entries p with
  | none => rfl
  | some m =>
    show omax (omax (some m) (some (m + 1))) (some (m + 1)) = some (m + 1)
    simp only [omax]
    rw [max_eq_right (by omega : m ≤ m + 1), max_self]

/-- After a complete run, the stored maximum run id of the pipeline is the
run id that run allocated. -/
theorem maxRunId_runPipelineModel (p config ts1 ts2 : String) (bodyOk : Bool)
    (logsText : String) (entries : List LogEntry) :
    maxRunId (runPipelineModel p config ts1 ts2 bodyOk logsText entries).1 p =
      some (getRunId entries p) := by
  cases bodyOk <;>
    · simp only [runPipelineModel, logAppend, Bool.false_eq_true, if_false, if_pos rfl]
      exact maxRunId_two_writes entries p _ _ rfl rfl rfl rfl

/-- Run ids allocated by successive complete runs count up from one past
the stored maximum. -/
theorem runSeq_allocations (p c : String) : ∀ (n : Nat) (entries : List LogEntry) (k : Int),
    maxRunId entries p = some k → (runSeq p c n entries).2 = intsFrom (k + 1) n := by
  intro n
  induction n with
  | zero => intro entries k _; rfl
  | succ n ih =>
    intro entries k hk
    have hrid : (runPipelineModel p c "t1" "t2" true "ok" entries).2 = k + 1 := by
      simp [runPipelineModel, getRunId, hk]
    have hmax : maxRunId (runPipelineModel p c "t1" "t2" true "ok" entries).1 p =
        some (k + 1) := by
      rw [maxRunId_runPipelineModel]
      simp [getRunId, hk]
    simp only [runSeq]
    rw [ih _ (k + 1) hmax, hrid, intsFrom]

end LogLemmas

/-! ## Claims C2 and C4: run-id allocation and the status lifecycle -/

/-- C2: the run id allocated at logger construction is `1 + max(existing
run_id for the pipeline)`, or `1` when none exist; it is strictly greater
than every stored run id of that pipeline (never reused), and sequential
complete runs from a table with no rows for the pipeline allocate
`1, 2, 3, …`. -/
theorem run_id_allocation (p c : String) (entries : List LogEntry) :
    (∀ e, e ∈ entries → e.pipeline_name = p → e.run_id < getRunId entries p) ∧
    (maxRunId entries p = none → getRunId entries p = 1) ∧
    (∀ m, maxRunId entries p = some m → getRunId entries p = m + 1) ∧
    (∀ n, maxRunId entries p = none → (runSeq p c n entries).2 = intsFrom 1 n) := by
  refine ⟨?_, ?_, ?_, ?_⟩
  · intro e he hp
    obtain ⟨m, hm, hle⟩ := le_maxRunId entries p e he hp
    simp only [getRunId, hm]
    omega
  · intro h
    simp [getRunId, h]
  · intro m h
    simp [getRunId, h]
  · intro n h
    cases n with
    | zero => rfl
    | succ n =>
      have hrid : (runPipelineModel p c "t1" "t2" true "ok" entries).2 = 1 := by
        simp [runPipelineModel, getRunId, h]
      have hmax : maxRunId (runPipelineModel p c "t1" "t2" true "ok" entries).1 p =
          some 1 := by
        rw [maxRunId_runPipelineModel]
        simp [getRunId, h]
      simp only [runSeq]
      rw [runSeq_allocations p c n _ 1 hmax, hrid, intsFrom]

/-- Witness for C2: three sequential complete runs of pipeline `"p"` from
an empty log table allocate run ids 1, 2, 3, and with a row for run 3
present the next allocation is 4. -/
theorem run_id_allocation_witness :
    (runSeq "p" "cfg" 3 []).2 = intsFrom 1 3 ∧
    getRunId [⟨"p", 3, "t", "success", "cfg", none⟩] "p" = 3 + 1 :=
  ⟨(run_id_allocation "p" "cfg" []).2.2.2 3 rfl,
   (run_id_allocation "p" "cfg" [⟨"p", 3, "t", "success", "cfg", none⟩]).2.2.1 3 (by decide)⟩

/-- C4: `run_pipeline` writes exactly one `start` row (null logs) before
the body and exactly one terminal row after it — `success` when the body
completes, `fail` when it raises, in both cases carrying the captured log
text — and both rows carry the run id allocated at logger construction. -/
theorem run_pipeline_status_lifecycle (p c ts1 ts2 : String) (bodyOk : Bool)
    (logsText : String) (entries : List LogEntry) :
    ∃ rid e1 e2,
      runPipelineModel p c ts1 ts2 bodyOk logsText entries = (entries ++ [e1, e2], rid) ∧
      rid = getRunId entries p ∧
      e1.status = "start" ∧ e1.logs = none ∧
      e1.run_id = rid ∧ e1.pipeline_name = p ∧
      e2.status = (if bodyOk then "success" else "fail") ∧
      e2.logs = some logsText ∧ e2.run_id = rid ∧ e2.pipeline_name = p ∧
      ([e1, e2].filter (fun e => e.status == "start")).length = 1 ∧
      ([e1, e2].filter (fun e => e.status == "success" || e.status == "fail")).length = 1 := by
  cases bodyOk with
  | true =>
    refine ⟨getRunId entries p,
      ⟨p, getRunId entries p, ts1, "start", c, none⟩,
      ⟨p, getRunId entries p, ts2, "success", c, some logsText⟩, ?_, rfl,
      rfl, rfl, rfl, rfl, rfl, rfl, rfl, rfl, by simp [List.filter], by simp [List.filter]⟩
    simp [runPipelineModel, logAppend]
  | false =>
    refine ⟨getRunId entries p,
      ⟨p, getRunId entries p, ts1, "start", c, none⟩,
      ⟨p, getRunId entries p, ts2, "fail", c, some logsText⟩, ?_, rfl,
      rfl, rfl, rfl, rfl, rfl, rfl, rfl, rfl, by simp [List.filter], by simp [List.filter]⟩
    simp [runPipelineModel, logAppend]

/-- Witness for C4 at a concrete run: a successful and a failing
invocation from an empty table each produce their start/terminal pair. -/
theorem run_pipeline_status_lifecycle_witness :
    (∃ rid e1 e2,
      runPipelineModel "p" "c" "t1" "t2" true "log" [] = ([] ++ [e1, e2], rid) ∧
      rid = getRunId [] "p" ∧
      e1.status = "start" ∧ e1.logs = none ∧
      e1.run_id = rid ∧ e1.pipeline_name = "p" ∧
      e2.status = (if true then "success" else "fail") ∧
      e2.logs = some "log" ∧ e2.run_id = rid ∧ e2.pipeline_name = "p" ∧
      ([e1, e2].filter (fun e => e.status == "start")).length = 1 ∧
      ([e1, e2].filter (fun e => e.status == "success" || e.status == "fail")).length = 1) ∧
    (∃ rid e1 e2,
      runPipelineModel "p" "c" "t1" "t2" false "boom" [] = ([] ++ [e1, e2], rid) ∧
      rid = getRunId [] "p" ∧
      e1.status = "start" ∧ e1.logs = none ∧
      e1.run_id = rid ∧ e1.pipeline_name = "p" ∧
      e2.status = (if false then "success" else "fail") ∧
      e2.logs = some "boom" ∧ e2.run_id = rid ∧ e2.pipeline_name = "p" ∧
      ([e1, e2].filter (fun e => e.status == "start")).length = 1 ∧
      ([e1, e2].filter (fun e => e.status == "success" || e.status == "fail")).length = 1) :=
  ⟨run_pipeline_status_lifecycle "p" "c" "t1" "t2" true "log" [],
   run_pipeline_status_lifecycle "p" "c" "t1" "t2" false "boom" []⟩

/-! ## Upsert lemmas

The idempotence argument: after one upsert of a batch with pairwise
distinct keys, the table is *settled* for every record of the batch — the
record's key is present, and updating any row the key matches changes
nothing — so a second upsert of the same batch is the identity. -/

section UpsertLemmas

/-- Updating `r` with `rec`'s tuple changes nothing (whenever the key
matches). -/
def saturated (keyCols cols : List String) (rec r : Row) : Prop :=
  matchesKey keyCols r rec = true → updateRow keyCols r (projectRow cols rec) = r

/-- The table rows are settled for `rec`: its key is present and every
matching row is already saturated. -/
def settled (keyCols cols : List String) (rec : Row) (rows : List Row) : Prop :=
  (∃ r, r ∈ rows ∧ matchesKey keyCols r rec = true) ∧
  ∀ r, r ∈ rows → saturated keyCols cols rec r

theorem matchesKey_iff (keyCols : List String) (r rec : Row) :
    matchesKey keyCols r rec = true ↔ ∀ k ∈ keyCols, rowValue r k = rowValue rec k := by
  simp [matchesKey, List.all_eq_true]

theorem keyOf_eq_of_matches (keyCols : List String) (r rec : Row)
    (h : matchesKey keyCols r rec = true) :
    keyOf keyCols r = keyOf keyCols rec :=
  List.map_congr_left ((matchesKey_iff keyCols r rec).mp h)

/-- Projection does not change the key tuple when every key column is a
declared column the record supplies. -/
theorem keyOf_projectRow (keyCols cols : List String) (rec : Row)
    (hsub : ∀ k ∈ keyCols, k ∈ cols)
    (hsupp : ∀ k ∈ keyCols, (rowValue rec k).isSome) :
    keyOf keyCols (projectRow cols rec) = keyOf keyCols rec := by
  refine List.map_congr_left (fun k hk => ?_)
  rw [rowValue_projectRow, if_pos (hsub k hk)]
  obtain ⟨v, hv⟩ := Option.isSome_iff_exists.mp (hsupp k hk)
  rw [hv]
  rfl

/-- The stored tuple of a record matches the record's own key. -/
theorem matchesKey_projectRow_self (keyCols cols : List String) (rec : Row)
    (hsub : ∀ k ∈ keyCols, k ∈ cols)
    (hsupp : ∀ k ∈ keyCols, (rowValue rec k).isSome) :
    matchesKey keyCols (projectRow cols rec) rec = true := by
  rw [matchesKey_iff]
  intro k hk
  rw [rowValue_projectRow, if_pos (hsub k hk)]
  obtain ⟨v, hv⟩ := Option.isSome_iff_exists.mp (hsupp k hk)
  rw [hv]
  rfl

/-- A row cannot key-match two records whose stored key tuples differ. -/
theorem not_matches_both (keyCols cols : List String) (a b r : Row)
    (hsub : ∀ k ∈ keyCols, k ∈ cols)
    (hsa : ∀ k ∈ keyCols, (rowValue a k).isSome)
    (hsb : ∀ k ∈ keyCols, (rowValue b k).isSome)
    (hdiff : keyOf keyCols (projectRow cols a) ≠ keyOf keyCols (projectRow cols b))
    (hma : matchesKey keyCols r a = true) :
    matchesKey keyCols r b = false := by
  cases hmb : matchesKey keyCols r b with
  | false => rfl
  | true =>
    exfalso
    apply hdiff
    rw [keyOf_projectRow keyCols cols a hsub hsa, keyOf_projectRow keyCols cols b hsub hsb]
    exact (keyOf_eq_of_matches keyCols r a hma).symm.trans (keyOf_eq_of_matches keyCols r b hmb)

/-- A record's own stored tuple is saturated for it. -/
theorem saturated_projectRow_self (keyCols cols : List String) (rec : Row) :
    saturated keyCols cols rec (projectRow cols rec) := by
  intro _
  unfold updateRow projectRow
  rw [List.map_map]
  refine List.map_congr_left (fun c hc => ?_)
  by_cases h : c ∈ keyCols
  · simp [h]
  · simp only [Function.comp_apply, h, if_neg, not_false_eq_true, if_false]
    rw [show rowValue (List.map (fun c => (c, (rowValue rec c).getD Value.null)) cols) c =
        rowValue (projectRow cols rec) c from rfl]
    rw [rowValue_projectRow, if_pos hc]
    simp [h]

/-- One upsert step settles the table for the upserted record. -/
theorem settled_upsertRow_self (keyCols cols : List String) (rec : Row) (rows : List Row)
    (hsub : ∀ k ∈ keyCols, k ∈ cols)
    (hsupp : ∀ k ∈ keyCols, (rowValue rec k).isSome) :
    settled keyCols cols rec (upsertRow keyCols cols rows rec) := by
  unfold upsertRow
  by_cases hany : rows.any (fun r => matchesKey keyCols r rec) = true
  · rw [if_pos hany]
    obtain ⟨r0, hr0, hm0⟩ := List.any_eq_true.mp hany
    constructor
    · refine ⟨updateRow keyCols r0 (projectRow cols rec), List.mem_map.mpr ⟨r0, hr0, ?_⟩, ?_⟩
      · rw [if_pos hm0]
      · rw [matchesKey_updateRow]
        exact hm0
    · intro r' hr'
      obtain ⟨r, hr, hEq⟩ := List.mem_map.mp hr'
      by_cases hm : matchesKey keyCols r rec = true
      · rw [if_pos hm] at hEq
        subst hEq
        intro _
        exact updateRow_updateRow keyCols r (projectRow cols rec)
      · rw [if_neg hm] at hEq
        subst hEq
        intro hcon
        exact absurd hcon hm
  · rw [if_neg hany]
    have hnone := List.any_eq_false.mp (Bool.eq_false_iff.mpr hany)
    constructor
    · exact ⟨projectRow cols rec, List.mem_append_right _ (List.mem_singleton.mpr rfl),
        matchesKey_projectRow_self keyCols cols rec hsub hsupp⟩
    · intro r hr
      rcases List.mem_append.mp hr with hin | hin
      · intro hcon
        exact absurd hcon (hnone r hin)
      · rw [List.mem_singleton] at hin
        subst hin
        exact saturated_projectRow_self keyCols cols rec

/-- Upserting a record with a different key preserves settledness. -/
theorem settled_upsertRow_other (keyCols cols : List String) (rec rec' : Row)
    (rows : List Row)
    (hsub : ∀ k ∈ keyCols, k ∈ cols)
    (hsupp : ∀ k ∈ keyCols, (rowValue rec k).isSome)
    (hsupp' : ∀ k ∈ keyCols, (rowValue rec' k).isSome)
    (hdiff : keyOf keyCols (projectRow cols rec) ≠ keyOf keyCols (projectRow cols rec'))
    (hs : settled keyCols cols rec rows) :
    settled keyCols cols rec (upsertRow keyCols cols rows rec') := by
  obtain ⟨⟨r0, hr0, hm0⟩, hsat⟩ := hs
  unfold upsertRow
  by_cases hany : rows.any (fun r => matchesKey keyCols r rec') = true
  · rw [if_pos hany]
    constructor
    · have hm0' : matchesKey keyCols r0 rec' = false :=
        not_matches_both keyCols cols rec rec' r0 hsub hsupp hsupp' hdiff hm0
      refine ⟨r0, List.mem_map.mpr ⟨r0, hr0, ?_⟩, hm0⟩
      rw [if_neg (by rw [hm0']; exact Bool.false_ne_true)]
    · intro r' hr'
      obtain ⟨r, hr, hEq⟩ := List.mem_map.mp hr'
      by_cases hm : matchesKey keyCols r rec' = true
      · rw [if_pos hm] at hEq
        subst hEq
        intro hmr
        rw [matchesKey_updateRow] at hmr
        have := not_matches_both keyCols cols rec rec' r hsub hsupp hsupp' hdiff hmr
        rw [this] at hm
        exact absurd hm Bool.false_ne_true
      · rw [if_neg hm] at hEq
        subst hEq
        exact hsat r hr
  · rw [if_neg hany]
    constructor
    · exact ⟨r0, List.mem_append_left _ hr0, hm0⟩
    · intro r hr
      rcases List.mem_append.mp hr with hin | hin
      · exact hsat r hin
      · rw [List.mem_singleton] at hin
        subst hin
        intro hm
        exfalso
        have h1 : keyOf keyCols (projectRow cols rec') = keyOf keyCols rec :=
          keyOf_eq_of_matches keyCols (projectRow cols rec') rec hm
        have h2 : keyOf keyCols rec = keyOf keyCols (projectRow cols rec) :=
          (keyOf_projectRow keyCols cols rec hsub hsupp).symm
        exact hdiff (h1.trans h2).symm

/-- Settledness for `rec` is preserved by folding records whose keys all
differ from `rec`'s. -/
theorem settled_foldl_of_settled (keyCols cols : List String) (rec : Row)
    (rest : List Row) :
    ∀ rows, settled keyCols cols rec rows →
    (∀ k ∈ keyCols, (rowValue rec k).isSome) →
    (∀ k ∈ keyCols, k ∈ cols) →
    (∀ r' ∈ rest, (∀ k ∈ keyCols, (rowValue r' k).isSome) ∧
      keyOf keyCols (projectRow cols rec) ≠ keyOf keyCols (projectRow cols r')) →
    settled keyCols cols rec (rest.foldl (upsertRow keyCols cols) rows) := by
  induction rest with
  | nil => intro rows hs _ _ _; exact hs
  | cons d rest ih =>
    intro rows hs hsupp hsub hrest
    rw [List.foldl_cons]
    exact ih (upsertRow keyCols cols rows d)
      (settled_upsertRow_other keyCols cols rec d rows hsub hsupp (hrest d (by simp)).1
        (hrest d (by simp)).2 hs)
      hsupp hsub (fun r' hr' => hrest r' (by simp [hr']))

/-- After folding a batch with pairwise distinct keys, the table is
settled for every record of the batch. -/
theorem settled_foldl (keyCols cols : List String) (data : List Row) :
    ∀ rows,
    (∀ k ∈ keyCols, k ∈ cols) →
    (∀ r ∈ data, ∀ k ∈ keyCols, (rowValue r k).isSome) →
    data.Pairwise (fun a b =>
      keyOf keyCols (projectRow cols a) ≠ keyOf keyCols (projectRow cols b)) →
    ∀ rec ∈ data, settled keyCols cols rec (data.foldl (upsertRow keyCols cols) rows) := by
  induction data with
  | nil => intro rows _ _ _ rec hrec; cases hrec
  | cons d rest ih =>
    intro rows hsub hsupp hdist rec hrec
    rw [List.foldl_cons]
    rcases List.mem_cons.mp hrec with heq | htl
    · subst heq
      refine settled_foldl_of_settled keyCols cols rec rest (upsertRow keyCols cols rows rec)
        (settled_upsertRow_self keyCols cols rec rows hsub (hsupp rec (by simp)))
        (hsupp rec (by simp)) hsub ?_
      intro r' hr'
      exact ⟨hsupp r' (by simp [hr']), (List.pairwise_cons.mp hdist).1 r' hr'⟩
    · exact ih (upsertRow keyCols cols rows d) hsub
        (fun r hr => hsupp r (by simp [hr])) (List.pairwise_cons.mp hdist).2 rec htl

/-- Folding a batch over a table already settled for each of its records
changes nothing. -/
theorem foldl_eq_of_settled (keyCols cols : List String) (data : List Row) :
    ∀ rows, (∀ rec ∈ data, settled keyCols cols rec rows) →
    data.foldl (upsertRow keyCols cols) rows = rows := by
  induction data with
  | nil => intro rows _; rfl
  | cons d rest ih =>
    intro rows h
    have hsd := h d (by simp)
    have hstep : upsertRow keyCols cols rows d = rows := by
      unfold upsertRow
      obtain ⟨⟨r0, hr0, hm0⟩, hsat⟩ := hsd
      rw [if_pos (List.any_eq_true.mpr ⟨r0, hr0, hm0⟩)]
      conv_rhs => rw [← List.map_id rows]
      refine List.map_congr_left (fun r hr => ?_)
      by_cases hm : matchesKey keyCols r d = true
      · rw [if_pos hm]
        exact hsat r hr hm
      · rw [if_neg hm]
        rfl
    rw [List.foldl_cons, hstep]
    exact ih rows (fun rec hrec => h rec (by simp [hrec]))

end UpsertLemmas

/-! ## Database state lemmas -/

section DbLemmas

theorem lookup_append {α : Type} (n : String) (l1 l2 : List (String × α)) :
    (l1 ++ l2).lookup n = (l1.lookup n).or (l2.lookup n) := by
  induction l1 with
  | nil => rfl
  | cons hd tl ih =>
    obtain ⟨a, b⟩ := hd
    by_cases h : n = a
    · subst h
      simp [List.lookup]
    · have hbeq : (n == a) = false := by simp [h]
      simp only [List.cons_append, List.lookup, hbeq]
      exact ih

theorem lookup_singleton_self {α : Type} (n : String) (v : α) :
    ([(n, v)] : List (String × α)).lookup n = some v := by
  simp [List.lookup]

theorem lookup_singleton_ne {α : Type} (n m : String) (v : α) (h : m ≠ n) :
    ([(n, v)] : List (String × α)).lookup m = none := by
  have hbeq : (m == n) = false := by simp [h]
  simp [List.lookup, hbeq]

/-- Unfolding one step of `create_all`. -/
theorem createAll_cons (s : Schema) (mt : List Schema) (db : Db) :
    createAll (s :: mt) db =
      createAll mt (if (db.tables.lookup s.name).isSome then db
        else { db with tables := db.tables ++ [(s.name, [])] }) := by
  unfold createAll
  rw [List.foldl_cons]

/-- `create_all` leaves existing tables' rows unchanged. -/
theorem createAll_lookup_some (mt : List Schema) :
    ∀ (db : Db) (n : String) (r : List Row),
    db.tables.lookup n = some r → (createAll mt db).tables.lookup n = some r := by
  induction mt with
  | nil => intro db n r h; exact h
  | cons s mt ih =>
    intro db n r h
    rw [createAll_cons]
    by_cases hp : (db.tables.lookup s.name).isSome
    · rw [if_pos hp]
      exact ih db n r h
    · rw [if_neg hp]
      refine ih _ n r ?_
      show (db.tables ++ [(s.name, [])]).lookup n = some r
      rw [lookup_append, h]
      rfl

/-- `create_all` can only add fresh empty tables: a table present
afterwards was present before with the same rows, or is empty. -/
theorem createAll_lookup_cases (mt : List Schema) :
    ∀ (db : Db) (n : String) (r : List Row),
    (createAll mt db).tables.lookup n = some r →
    db.tables.lookup n = some r ∨ r = [] := by
  induction mt with
  | nil => intro db n r h; exact Or.inl h
  | cons s mt ih =>
    intro db n r h
    rw [createAll_cons] at h
    by_cases hp : (db.tables.lookup s.name).isSome
    · rw [if_pos hp] at h
      exact ih db n r h
    · rw [if_neg hp] at h
      rcases ih _ n r h with hc | hc
      · rw [show ({ db with tables := db.tables ++ [(s.name, [])] } : Db).tables
            = db.tables ++ [(s.name, [])] from rfl, lookup_append] at hc
        cases hl : db.tables.lookup n with
        | some v =>
          rw [hl] at hc
          exact Or.inl hc
        | none =>
          rw [hl, Option.none_or] at hc
          by_cases hn : n = s.name
          · subst hn
            rw [lookup_singleton_self] at hc
            exact Or.inr (Option.some_injective _ hc).symm
          · rw [lookup_singleton_ne _ _ _ hn] at hc
            cases hc
      · exact Or.inr hc

/-- Every schema passed to `create_all` has its table present afterwards. -/
theorem createAll_mem_isSome (mt : List Schema) :
    ∀ (db : Db) (s : Schema), s ∈ mt →
    ((createAll mt db).tables.lookup s.name).isSome := by
  induction mt with
  | nil => intro db s h; cases h
  | cons s0 mt ih =>
    intro db s h
    rw [createAll_cons]
    rcases List.mem_cons.mp h with heq | htl
    · subst heq
      by_cases hp : (db.tables.lookup s.name).isSome
      · rw [if_pos hp]
        obtain ⟨r, hr⟩ := Option.isSome_iff_exists.mp hp
        rw [createAll_lookup_some mt db s.name r hr]
        rfl
      · rw [if_neg hp]
        have hfresh : ({ db with tables := db.tables ++ [(s.name, [])] } : Db).tables.lookup
            s.name = some [] := by
          show (db.tables ++ [(s.name, [])]).lookup s.name = some []
          rw [lookup_append, Option.not_isSome_iff_eq_none.mp hp, Option.none_or]
          exact lookup_singleton_self _ _
        rw [createAll_lookup_some mt _ s.name [] hfresh]
        rfl
    · by_cases hp : (db.tables.lookup s0.name).isSome
      · rw [if_pos hp]
        exact ih db s htl
      · rw [if_neg hp]
        exact ih _ s htl

/-- `create_all` is the identity when every schema's table already exists. -/
theorem createAll_eq_of_present (mt : List Schema) :
    ∀ (db : Db), (∀ s ∈ mt, (db.tables.lookup s.name).isSome) →
    createAll mt db = db := by
  induction mt with
  | nil => intro db _; rfl
  | cons s mt ih =>
    intro db h
    rw [createAll_cons, if_pos (h s (by simp))]
    exact ih db (fun s' hs' => h s' (by simp [hs']))

/-- `create_all` creates no views. -/
theorem createAll_views (mt : List Schema) : ∀ (db : Db), (createAll mt db).views = db.views := by
  induction mt with
  | nil => intro db; rfl
  | cons s mt ih =>
    intro db
    rw [createAll_cons]
    by_cases hp : (db.tables.lookup s.name).isSome
    · rw [if_pos hp]
      exact ih db
    · rw [if_neg hp]
      exact ih _

theorem lookup_map_set (l : List (String × List Row)) (n : String) (rows : List Row) :
    (l.map (fun t => if t.1 = n then (t.1, rows) else t)).lookup n =
      (l.lookup n).map (fun _ => rows) := by
  induction l with
  | nil => rfl
  | cons hd tl ih =>
    obtain ⟨a, b⟩ := hd
    rw [List.map_cons]
    by_cases h : a = n
    · subst h
      rw [show (if (a, b).1 = a then ((a, b).1, rows) else (a, b)) = (a, rows) from by simp]
      simp [List.lookup]
    · rw [show (if (a, b).1 = n then ((a, b).1, rows) else (a, b)) = (a, b) from by simp [h]]
      have hbeq : (n == a) = false := by simp [Ne.symm h]
      simp only [List.lookup, hbeq]
      exact ih

theorem lookup_map_set_ne (l : List (String × List Row)) (n m : String) (rows : List Row)
    (hnm : m ≠ n) :
    (l.map (fun t => if t.1 = n then (t.1, rows) else t)).lookup m = l.lookup m := by
  induction l with
  | nil => rfl
  | cons hd tl ih =>
    obtain ⟨a, b⟩ := hd
    rw [List.map_cons]
    by_cases ha : a = n
    · subst ha
      rw [show (if (a, b).1 = a then ((a, b).1, rows) else (a, b)) = (a, rows) from by simp]
      have hbeq : (m == a) = false := by simp [hnm]
      simp only [List.lookup, hbeq]
      exact ih
    · rw [show (if (a, b).1 = n then ((a, b).1, rows) else (a, b)) = (a, b) from by simp [ha]]
      by_cases hm : m = a
      · subst hm
        simp [List.lookup]
      · have hbeq : (m == a) = false := by simp [hm]
        simp only [List.lookup, hbeq]
        exact ih

theorem setTable_lookup_self (db : Db) (n : String) (rows : List Row)
    (h : (db.tables.lookup n).isSome) :
    (setTable db n rows).tables.lookup n = some rows := by
  obtain ⟨r, hr⟩ := Option.isSome_iff_exists.mp h
  show (db.tables.map fun t => if t.1 = n then (t.1, rows) else t).lookup n = some rows
  rw [lookup_map_set, hr]
  rfl

theorem setTable_names (db : Db) (n : String) (rows : List Row) (m : String) :
    ((setTable db n rows).tables.lookup m).isSome = (db.tables.lookup m).isSome := by
  by_cases hm : m = n
  · subst hm
    show ((db.tables.map fun t => if t.1 = m then (t.1, rows) else t).lookup m).isSome = _
    rw [lookup_map_set]
    cases db.tables.lookup m <;> rfl
  · show ((db.tables.map fun t => if t.1 = n then (t.1, rows) else t).lookup m).isSome = _
    rw [lookup_map_set_ne _ _ _ _ hm]

theorem setTable_setTable (db : Db) (n : String) (r1 r2 : List Row) :
    setTable (setTable db n r1) n r2 = setTable db n r2 := by
  unfold setTable
  simp only [List.map_map]
  congr 1
  refine List.map_congr_left (fun t _ => ?_)
  by_cases h : t.1 = n <;> simp [h]

theorem lookup_filter_ne (n : String) (l : List (String × List Row)) :
    (l.filter (fun t => t.1 ≠ n)).lookup n = none := by
  induction l with
  | nil => rfl
  | cons hd tl ih =>
    obtain ⟨a, b⟩ := hd
    by_cases h : a = n
    · subst h
      simpa [List.filter_cons] using ih
    · have hkeep : (((a, b) :: tl).filter (fun t => t.1 ≠ n)) =
          (a, b) :: tl.filter (fun t => t.1 ≠ n) := by
        simp [List.filter_cons, h]
      have hbeq : (n == a) = false := by simp [Ne.symm h]
      rw [hkeep]
      simp only [List.lookup, hbeq]
      exact ih

end DbLemmas

/-! ## Claims C1 and C9: upsert idempotence and insert collision -/

/-- C1: for a schema with (non-empty) declared key columns that are among
the declared columns, and a batch whose records supply every declared
column and have pairwise-distinct key tuples, upserting the batch twice
yields exactly the state of upserting it once; a record whose key matches
no row is appended fresh, and a conflict update keeps the stored row's key
columns while overwriting its non-key columns with the incoming values. -/
theorem upsert_idempotent (table : Schema) (metaTables : List Schema)
    (data : List Row) (db : Db)
    (_hkeys : table.keyCols ≠ [])
    (hsub : ∀ k ∈ table.keyCols, k ∈ table.columns)
    (hsupp : ∀ r ∈ data, ∀ c ∈ table.columns, (rowValue r c).isSome)
    (hdist : (data.map (fun r => keyOf table.keyCols (projectRow table.columns r))).Nodup)
    (hexists : (db.tables.lookup table.name).isSome ∨ table ∈ metaTables) :
    (∃ db1, upsertRows data table metaTables db = .ok db1 ∧
      upsertRows data table metaTables db1 = .ok db1) ∧
    (∀ rows rec, rows.any (fun r => matchesKey table.keyCols r rec) = false →
      upsertRow table.keyCols table.columns rows rec =
        rows ++ [projectRow table.columns rec]) ∧
    (∀ r incoming k, k ∈ table.keyCols →
      rowValue (updateRow table.keyCols r incoming) k = rowValue r k) ∧
    (∀ r incoming c v w, c ∉ table.keyCols → rowValue r c = some v →
      rowValue incoming c = some w →
      rowValue (updateRow table.keyCols r incoming) c = some w) := by
  have hpair : data.Pairwise (fun a b =>
      keyOf table.keyCols (projectRow table.columns a) ≠
        keyOf table.keyCols (projectRow table.columns b)) :=
    List.pairwise_map.mp hdist
  have hksupp : ∀ r ∈ data, ∀ k ∈ table.keyCols, (rowValue r k).isSome :=
    fun r hr k hk => hsupp r hr k (hsub k hk)
  have hsome : ((createAll metaTables db).tables.lookup table.name).isSome := by
    rcases hexists with h | h
    · obtain ⟨r, hr⟩ := Option.isSome_iff_exists.mp h
      rw [createAll_lookup_some metaTables db _ _ hr]
      rfl
    · exact createAll_mem_isSome metaTables db table h
  obtain ⟨rows0, hrows0⟩ := Option.isSome_iff_exists.mp hsome
  refine ⟨?_, ?_, ?_, ?_⟩
  · refine ⟨setTable (createAll metaTables db) table.name
      (data.foldl (upsertRow table.keyCols table.columns) rows0), ?_, ?_⟩
    · unfold upsertRows
      simp only [hrows0, decide_eq_true hdist, Bool.not_true, Bool.false_eq_true, if_false]
    · have hset : ∀ rec ∈ data, settled table.keyCols table.columns rec
          (data.foldl (upsertRow table.keyCols table.columns) rows0) :=
        settled_foldl table.keyCols table.columns data rows0 hsub hksupp hpair
      have hidem := foldl_eq_of_settled table.keyCols table.columns data
        (data.foldl (upsertRow table.keyCols table.columns) rows0) hset
      have hpresent : ∀ s ∈ metaTables,
          ((setTable (createAll metaTables db) table.name
            (data.foldl (upsertRow table.keyCols table.columns) rows0)).tables.lookup
              s.name).isSome := by
        intro s hs
        rw [setTable_names]
        exact createAll_mem_isSome metaTables db s hs
      have hcreate2 := createAll_eq_of_present metaTables _ hpresent
      have hlook1 := setTable_lookup_self (createAll metaTables db) table.name
        (data.foldl (upsertRow table.keyCols table.columns) rows0) hsome
      unfold upsertRows
      simp only [hcreate2, hlook1, decide_eq_true hdist, Bool.not_true,
        Bool.false_eq_true, if_false]
      rw [hidem, setTable_setTable]
  · intro rows rec h
    unfold upsertRow
    rw [if_neg (by rw [h]; exact Bool.false_ne_true)]
  · intro r incoming k hk
    exact rowValue_updateRow_key table.keyCols r incoming k hk
  · intro r incoming c v w hc hv hw
    rw [rowValue_updateRow, hv]
    simp [hc, hw]

/-- The sample schema for concrete load-engine runs. -/
def sampleTable : Schema := ⟨"t", ["id", "x"], ["id"]⟩

/-- A sample two-record batch with distinct keys. -/
def sampleData : List Row :=
  [[("id", Value.int 1), ("x", Value.str "a")],
   [("id", Value.int 2), ("x", Value.str "b")]]

/-- Witness for C1: upserting the sample batch twice into an initially
empty database equals upserting it once. -/
theorem upsert_idempotent_witness :
    ∃ db1, upsertRows sampleData sampleTable [sampleTable] ⟨[], []⟩ = .ok db1 ∧
      upsertRows sampleData sampleTable [sampleTable] db1 = .ok db1 :=
  (upsert_idempotent sampleTable [sampleTable] sampleData ⟨[], []⟩ (by decide) (by decide)
    (by decide) (by decide) (Or.inr (by decide))).1

/-- C9: an insert whose batch contains a record whose key tuple collides
with an existing row raises a constraint violation, and the stored rows —
in particular the pre-existing row — are unchanged. -/
theorem insert_rejects_collision (data : List Row) (table : Schema)
    (metaTables : List Schema) (db : Db) (rows : List Row) (rec row : Row)
    (hlook : db.tables.lookup table.name = some rows)
    (hrec : rec ∈ data) (hrow : row ∈ rows)
    (hcoll : keyOf table.keyCols row = keyOf table.keyCols (projectRow table.columns rec)) :
    ∃ db', insertRows data table metaTables db = .err .constraintViolation db' ∧
      db'.tables.lookup table.name = some rows := by
  have hlook' := createAll_lookup_some metaTables db table.name rows hlook
  refine ⟨createAll metaTables db, ?_, hlook'⟩
  have hany : (data.map (projectRow table.columns)).any
      (fun nr => rows.any (fun r =>
        decide (keyOf table.keyCols r = keyOf table.keyCols nr))) = true := by
    rw [List.any_eq_true]
    refine ⟨projectRow table.columns rec, List.mem_map_of_mem _ hrec, ?_⟩
    rw [List.any_eq_true]
    exact ⟨row, hrow, decide_eq_true hcoll⟩
  unfold insertRows
  simp only [hlook', hany, Bool.true_or, if_true]

/-- Witness for C9: inserting a record with key `id = 1` into a table
already holding a row with `id = 1` fails with a constraint violation and
leaves the old row in place. -/
theorem insert_rejects_collision_witness :
    ∃ db', insertRows [[("id", Value.int 1), ("x", Value.str "new")]] sampleTable []
        ⟨[("t", [[("id", Value.int 1), ("x", Value.str "old")]])], []⟩ =
      .err .constraintViolation db' ∧
      db'.tables.lookup "t" = some [[("id", Value.int 1), ("x", Value.str "old")]] :=
  insert_rejects_collision [[("id", Value.int 1), ("x", Value.str "new")]] sampleTable []
    ⟨[("t", [[("id", Value.int 1), ("x", Value.str "old")]])], []⟩
    [[("id", Value.int 1), ("x", Value.str "old")]]
    [("id", Value.int 1), ("x", Value.str "new")]
    [("id", Value.int 1), ("x", Value.str "old")]
    (by decide) (by decide) (by decide) (by decide)

/-! ## Claims C6 and C10: overwrite -/

/-- A successful overwrite: drop (no-op when absent, refused when other
objects depend on the table), recreate from the metadata's schemas, insert
the batch into the fresh table. -/
theorem overwrite_ok (table : Schema) (metaTables : List Schema) (X : List Row) (db : Db)
    (hmem : table ∈ metaTables)
    (hok : db.tables.lookup table.name = none ∨
      db.views.any (fun v => v.2.contains table.name) = false)
    (hX : ((X.map (projectRow table.columns)).map (keyOf table.keyCols)).Nodup) :
    ∃ db1, overwrite X table metaTables db = .ok db1 ∧
      db1.tables.lookup table.name = some (X.map (projectRow table.columns)) ∧
      db1.views = db.views := by
  obtain ⟨dbd, hdrop, hdlook, hdviews⟩ :
      ∃ dbd, dropTable table.name db = .ok dbd ∧
        dbd.tables.lookup table.name = none ∧ dbd.views = db.views := by
    cases hl : db.tables.lookup table.name with
    | none =>
      refine ⟨db, ?_, hl, rfl⟩
      unfold dropTable
      rw [hl]
    | some r =>
      have hv : db.views.any (fun v => v.2.contains table.name) = false := by
        rcases hok with h | h
        · rw [hl] at h
          cases h
        · exact h
      refine ⟨{ db with tables := db.tables.filter (fun t => t.1 ≠ table.name) }, ?_, ?_, rfl⟩
      · unfold dropTable
        rw [hl, if_neg (by rw [hv]; exact Bool.false_ne_true)]
      · exact lookup_filter_ne table.name db.tables
  have hsome : ((createAll metaTables dbd).tables.lookup table.name).isSome :=
    createAll_mem_isSome metaTables dbd table hmem
  obtain ⟨rows0, hrows0⟩ := Option.isSome_iff_exists.mp hsome
  have hrows0nil : rows0 = [] := by
    rcases createAll_lookup_cases metaTables dbd table.name rows0 hrows0 with h | h
    · rw [hdlook] at h
      cases h
    · exact h
  subst hrows0nil
  have hins : insertRows X table metaTables dbd =
      .ok (setTable (createAll metaTables dbd) table.name
        ([] ++ X.map (projectRow table.columns))) := by
    unfold insertRows
    simp only [hrows0, List.any_nil, List.any_eq_true, false_and, exists_false,
      decide_eq_true hX, Bool.not_true, Bool.or_false, Bool.false_eq_true, if_false]
    simp
  refine ⟨setTable (createAll metaTables dbd) table.name
    ([] ++ X.map (projectRow table.columns)), ?_, ?_, ?_⟩
  · unfold overwrite
    rw [hdrop]
    exact hins
  · simp only [List.nil_append]
    exact setTable_lookup_self (createAll metaTables dbd) table.name _ hsome
  · show (createAll metaTables dbd).views = db.views
    rw [createAll_views, hdviews]

/-- C6 (amended): overwrite drops the destination table when it exists —
refusing (no `CASCADE` is issued) when other objects depend on it —
recreates it from the schema bound in the supplied metadata, and inserts;
hence for a table with no dependents, loading record set A and then record
set B leaves exactly B's rows, never A ∪ B. -/
theorem overwrite_leaves_only_second (table : Schema) (metaTables : List Schema)
    (A B : List Row) (db : Db)
    (hmem : table ∈ metaTables)
    (hviews : db.views.any (fun v => v.2.contains table.name) = false)
    (hA : ((A.map (projectRow table.columns)).map (keyOf table.keyCols)).Nodup)
    (hB : ((B.map (projectRow table.columns)).map (keyOf table.keyCols)).Nodup) :
    ∃ db1 db2, overwrite A table metaTables db = .ok db1 ∧
      overwrite B table metaTables db1 = .ok db2 ∧
      db2.tables.lookup table.name = some (B.map (projectRow table.columns)) := by
  obtain ⟨db1, h1, _, hv1⟩ := overwrite_ok table metaTables A db hmem (Or.inr hviews) hA
  obtain ⟨db2, h2, hl2, _⟩ := overwrite_ok table metaTables B db1 hmem
    (Or.inr (by rw [hv1]; exact hviews)) hB
  exact ⟨db1, db2, h1, h2, hl2⟩

/-- Counterexample to C6 as stated: `drop_table` issues no `CASCADE`, so
with a dependent view present the overwrite fails with a dependent-objects
error and the old rows survive — it does not cascade and does not leave
B's rows. -/
theorem overwrite_no_cascade_counterexample :
    overwrite [[("id", Value.int 2)]] ⟨"t", ["id"], ["id"]⟩ [⟨"t", ["id"], ["id"]⟩]
        ⟨[("t", [[("id", Value.int 1)]])], [("v", ["t"])]⟩ =
      .err .dependentObjects ⟨[("t", [[("id", Value.int 1)]])], [("v", ["t"])]⟩ := by
  decide

/-- Witness for the amended C6: loading A then B (disjoint keys, no
dependent views) leaves exactly B's projected rows. -/
theorem overwrite_leaves_only_second_witness :
    ∃ db1 db2, overwrite [[("id", Value.int 1), ("x", Value.str "a")]] sampleTable
        [sampleTable] ⟨[], []⟩ = .ok db1 ∧
      overwrite [[("id", Value.int 2), ("x", Value.str "b")]] sampleTable
        [sampleTable] db1 = .ok db2 ∧
      db2.tables.lookup "t" =
        some ([[("id", Value.int 2), ("x", Value.str "b")]].map
          (projectRow sampleTable.columns)) :=
  overwrite_leaves_only_second sampleTable [sampleTable]
    [[("id", Value.int 1), ("x", Value.str "a")]]
    [[("id", Value.int 2), ("x", Value.str "b")]] ⟨[], []⟩
    (by decide) (by decide) (by decide) (by decide)

/-- C10: the drop step of overwrite is a no-op — not an error — on an
absent table (`drop table if exists`), so overwrite serves as the
first-ever load: it creates the table from the metadata's schema and
leaves exactly the batch's rows. -/
theorem overwrite_first_load (table : Schema) (metaTables : List Schema)
    (data : List Row) (db : Db)
    (habsent : db.tables.lookup table.name = none)
    (hmem : table ∈ metaTables)
    (hdata : ((data.map (projectRow table.columns)).map (keyOf table.keyCols)).Nodup) :
    dropTable table.name db = .ok db ∧
    ∃ db', overwrite data table metaTables db = .ok db' ∧
      db'.tables.lookup table.name = some (data.map (projectRow table.columns)) := by
  constructor
  · unfold dropTable
    rw [habsent]
  · obtain ⟨db', h1, h2, _⟩ := overwrite_ok table metaTables data db hmem
      (Or.inl habsent) hdata
    exact ⟨db', h1, h2⟩

/-- Witness for C10: overwriting into a database with no table at all
succeeds and creates the table holding the batch. -/
theorem overwrite_first_load_witness :
    dropTable "t" (⟨[], []⟩ : Db) = .ok ⟨[], []⟩ ∧
    ∃ db', overwrite sampleData sampleTable [sampleTable] ⟨[], []⟩ = .ok db' ∧
      db'.tables.lookup "t" = some (sampleData.map (projectRow sampleTable.columns)) :=
  overwrite_first_load sampleTable [sampleTable] sampleData ⟨[], []⟩
    (by decide) (by decide) (by decide)

/-! ## Claim C5: batch loading and schema lookup -/

/-- A successfully loaded batch continues from its final state. -/
theorem loadTables_append (method : String) (ts : List (String × Schema))
    (pre : List (String × List Row)) :
    ∀ (rest : List (String × List Row)) (db db1 : Db),
    loadTables method ts pre db = .ok db1 →
    loadTables method ts (pre ++ rest) db = loadTables method ts rest db1 := by
  induction pre with
  | nil =>
    intro rest db db1 h
    injection h with h'
    subst h'
    rfl
  | cons hd pre ih =>
    intro rest db db1 h
    obtain ⟨name, df⟩ := hd
    rw [List.cons_append]
    rw [loadTables] at h ⊢
    cases hl : ts.lookup name with
    | none =>
      rw [hl] at h
      exact DbResult.noConfusion h
    | some table =>
      rw [hl] at h
      change (match applyLoadMethod method df table db with
        | DbResult.ok db' => loadTables method ts pre db'
        | DbResult.err e db' => DbResult.err e db') = DbResult.ok db1 at h
      change (match applyLoadMethod method df table db with
        | DbResult.ok db' => loadTables method ts (pre ++ rest) db'
        | DbResult.err e db' => DbResult.err e db') = loadTables method ts rest db1
      cases ha : applyLoadMethod method df table db with
      | ok db' =>
        rw [ha] at h
        exact ih rest db' db1 h
      | err e db' =>
        rw [ha] at h
        exact DbResult.noConfusion h

/-- C5 (amended): `load_data` looks schemas up lazily, per table, in
iteration order: when every table before some position resolves and loads
successfully but the table at that position has no schema, the call raises
`SchemaNotFound` *after* the earlier tables were loaded — the tables after
the failing position are untouched, but the earlier ones already received
their data. -/
theorem load_data_lazy_schema_lookup (method : String)
    (pre : List (String × List Row)) (name : String) (df : List Row)
    (post : List (String × List Row)) (tableSchemas : List (String × Schema))
    (db db1 : Db)
    (hm : method ∈ (["insert", "upsert", "overwrite"] : List String))
    (hpre : loadTables method tableSchemas pre db = .ok db1)
    (hmiss : tableSchemas.lookup name = none) :
    load_data (pre ++ (name, df) :: post) tableSchemas method db =
      .err .schemaNotFound db1 := by
  unfold load_data
  rw [if_pos hm, loadTables_append method tableSchemas pre ((name, df) :: post) db db1 hpre,
    loadTables, hmiss]

/-- Counterexample to C5 as stated: with tables `a` (schema present) and
`b` (schema missing) in one call, the call fails with `SchemaNotFound` but
table `a` has already received its record — the failure does not happen
before any table is touched. -/
theorem load_data_not_upfront_counterexample :
    load_data [("a", [[("id", Value.int 1)]]), ("b", [[("id", Value.int 2)]])]
        [("a", ⟨"a", ["id"], ["id"]⟩)] "upsert" ⟨[("a", [])], []⟩ =
      .err .schemaNotFound ⟨[("a", [[("id", Value.int 1)]])], []⟩ ∧
    (⟨[("a", [[("id", Value.int 1)]])], []⟩ : Db).tables.lookup "a" ≠ some [] := by
  decide

/-- Witness for the amended C5 at the same concrete input, obtained
through the general theorem. -/
theorem load_data_lazy_schema_lookup_witness :
    load_data ([("a", [[("id", Value.int 1)]])] ++ ("b", [[("id", Value.int 2)]]) :: [])
        [("a", ⟨"a", ["id"], ["id"]⟩)] "upsert" ⟨[("a", [])], []⟩ =
      .err .schemaNotFound ⟨[("a", [[("id", Value.int 1)]])], []⟩ :=
  load_data_lazy_schema_lookup "upsert" [("a", [[("id", Value.int 1)]])] "b"
    [[("id", Value.int 2)]] [] [("a", ⟨"a", ["id"], ["id"]⟩)] ⟨[("a", [])], []⟩
    ⟨[("a", [[("id", Value.int 1)]])], []⟩ (by decide) (by decide) (by decide)

end SpotifyEtl
